import Mathlib

/-!
Verification of the question-answering pipeline (questions.py): tokenization
filtering, IDF computation, document ranking (`top_files`) and sentence
ranking (`top_sentences`).

Modelling conventions:
* Python dicts are modelled as insertion-ordered association lists
  `List (String × τ)`; dict lookup (`d[k]` / `d.get(k, v)`) is `List.lookup`.
* Python sets are modelled as `Finset String`; a `for`-loop accumulating a sum
  over a set is a `Finset.sum`.
* Python floats are modelled as real numbers (`ℝ`) where a transcendental
  function (`math.log`) occurs, and generically over a `LinearOrderedField`
  in the rankers, which only add, multiply and compare.
* Python's stable `sorted(·, key, reverse=True)` is modelled as a stable
  insertion sort by the key, descending.
* The fallible division in `top_sentences` (Python raises `ZeroDivisionError`)
  is modelled with `Option`.
* The external NLTK word tokenizer and stopword list are black boxes
  (the spec places them out of scope); they are abstract parameters `wt`
  and `stopWords`.
-/

/-- The constant `string.punctuation` from the Python standard library: the ASCII
characters `!"#$%&'()*+,-./:;<=>?@[\]^_` backtick `{|}~`, built here from
their character codes (33–47, 58–64, 91–96, 123–126). -/
def PUNCTUATIONS : String :=
  String.mk (([33, 34, 35, 36, 37, 38, 39, 40, 41, 42, 43, 44, 45, 46, 47,
    58, 59, 60, 61, 62, 63, 64, 91, 92, 93, 94, 95, 96, 123, 124, 125,
    126] : List Nat).map Char.ofNat)

/-- Python's `sub in s` for strings: `true` iff `sub` occurs as a contiguous
substring of `s` (the empty string occurs in every string). -/
def pyInStr (sub : List Char) : List Char → Bool
  | [] => sub.isPrefixOf []
  | c :: t => sub.isPrefixOf (c :: t) || pyInStr sub t

/-- Function `tokenize` from questions.py: lowercase the document, run the external
word tokenizer `wt` over it, and keep a word iff it is not in the stopword
list and is not a substring of `string.punctuation` (Python's
`word not in STOP_WORDS and word not in PUNCTUATIONS`, where the second
test is the substring test of `in` on strings). -/
def tokenize (wt : String → List String) (stopWords : List String)
    (document : String) : List String :=
  (wt document.toLower).filter
    (fun word => !(stopWords.contains word) && !(pyInStr word.data PUNCTUATIONS.data))

/-- Python's `sorted(l, key, reverse=True)`: a stable sort placing larger
keys first; elements with equal keys keep their original relative order. -/
def pySortDesc {β γ : Type*} [LinearOrder γ] (key : β → γ) (l : List β) : List β :=
  List.insertionSort (fun p q => key q ≤ key p) l

lemma pySortDesc_perm {β γ : Type*} [LinearOrder γ] (key : β → γ) (l : List β) :
    (pySortDesc key l).Perm l :=
  List.perm_insertionSort _ l

lemma pySortDesc_pairwise {β γ : Type*} [LinearOrder γ] (key : β → γ) (l : List β) :
    (pySortDesc key l).Pairwise (fun p q => key q ≤ key p) := by
  haveI : IsTotal β (fun p q => key q ≤ key p) := ⟨fun a b => le_total (key b) (key a)⟩
  haveI : IsTrans β (fun p q => key q ≤ key p) :=
    ⟨fun _ _ _ hab hbc => le_trans hbc hab⟩
  exact List.sorted_insertionSort (fun p q => key q ≤ key p) l

lemma orderedInsert_of_all_eq {β γ : Type*} [LinearOrder γ] (key : β → γ) (c : γ)
    (a : β) (l : List β) (ha : key a = c) (hl : ∀ p ∈ l, key p = c) :
    List.orderedInsert (fun p q => key q ≤ key p) a l = a :: l := by
  cases l with
  | nil => rfl
  | cons b t =>
      have hb : key b ≤ key a := by
        rw [ha, hl b (List.mem_cons_self b t)]
      simp [List.orderedInsert, hb]

/-- When every element has the same key, the stable descending sort is the
identity (Python's `sorted` keeps the original order on ties). -/
lemma pySortDesc_of_all_eq {β γ : Type*} [LinearOrder γ] (key : β → γ) (c : γ)
    (l : List β) (hl : ∀ p ∈ l, key p = c) : pySortDesc key l = l := by
  induction l with
  | nil => rfl
  | cons a t ih =>
      have ht : ∀ p ∈ t, key p = c := fun p hp => hl p (List.mem_cons_of_mem a hp)
      have ha : key a = c := hl a (List.mem_cons_self a t)
      unfold pySortDesc at ih ⊢
      rw [List.insertionSort]
      rw [ih ht]
      exact orderedInsert_of_all_eq key c a t ha ht

/-- The innermost loop of `compute_idfs`: `for words_from_other_document in
words_from_remaining_documents: if word in words_from_other_document:
word_to_frequency[word] += 1` — the number of token lists in `docs` that
contain `w` at least once. -/
def countDocsContaining (w : String) (docs : List (List String)) : Nat :=
  docs.countP (fun d => decide (w ∈ d))

/-- The middle loop of `compute_idfs` over the words of one document: a word
already present in the frequency dict is skipped (`continue`); otherwise it is
appended with its document count over the remaining documents. -/
def processWords (remaining : List (List String)) :
    List String → List (String × Nat) → List (String × Nat)
  | [], freq => freq
  | w :: ws, freq =>
      if (freq.lookup w).isSome then processWords remaining ws freq
      else processWords remaining ws (freq ++ [(w, countDocsContaining w remaining)])

/-- The outer loop of `compute_idfs`: at index `idx` the remaining documents
are `words_from_documents[idx:]`, i.e. the current document followed by the
rest. -/
def buildFreq : List (List String) → List (String × Nat) → List (String × Nat)
  | [], freq => freq
  | ws :: rest, freq => buildFreq rest (processWords (ws :: rest) ws freq)

/-- Function `compute_idfs` from questions.py: build the word-to-document-frequency
dict, drop zero entries, and map each frequency `v` to
`math.log(num_documents / v)`. -/
noncomputable def compute_idfs (documents : List (String × List String)) :
    List (String × ℝ) :=
  let num_documents := documents.length
  let word_to_frequency := buildFreq (documents.map Prod.snd) []
  (word_to_frequency.filter (fun p => p.2 != 0)).map
    (fun p => (p.1, Real.log ((num_documents : ℝ) / (p.2 : ℝ))))

lemma lookup_append {β : Type*} (l₁ l₂ : List (String × β)) (w : String) :
    (l₁ ++ l₂).lookup w =
      if (l₁.lookup w).isSome then l₁.lookup w else l₂.lookup w := by
  induction l₁ with
  | nil => simp [List.lookup]
  | cons p t ih =>
      obtain ⟨k, v⟩ := p
      by_cases h : w = k
      · subst h
        simp [List.lookup]
      · have hne : (w == k) = false := beq_false_of_ne h
        have e1 : List.lookup w (((k, v) :: t) ++ l₂) = List.lookup w (t ++ l₂) := by
          simp [List.lookup, hne]
        have e2 : List.lookup w ((k, v) :: t) = List.lookup w t := by
          simp [List.lookup, hne]
        rw [e1, e2, ih]

lemma processWords_lookup (remaining : List (List String)) (ws : List String)
    (freq : List (String × Nat)) (w : String) :
    (processWords remaining ws freq).lookup w =
      if (freq.lookup w).isSome then freq.lookup w
      else if w ∈ ws then some (countDocsContaining w remaining) else none := by
  induction ws generalizing freq with
  | nil =>
      cases h : freq.lookup w <;> simp [processWords, h]
  | cons v ws ih =>
      by_cases hv : (freq.lookup v).isSome
      · rw [processWords, if_pos hv, ih]
        by_cases hw : (freq.lookup w).isSome
        · simp [hw]
        · have hwv : w ≠ v := by
            intro h
            exact hw (h ▸ hv)
          simp [hw, List.mem_cons, hwv]
      · rw [processWords, if_neg hv, ih]
        by_cases hwv : w = v
        · subst hwv
          have h1 : ((freq ++ [(w, countDocsContaining w remaining)]).lookup w)
              = some (countDocsContaining w remaining) := by
            rw [lookup_append, if_neg]
            · simp [List.lookup]
            · intro h
              exact hv h
          have hw : ¬ (freq.lookup w).isSome := hv
          simp [h1, hw, List.mem_cons]
        · have h1 : ((freq ++ [(v, countDocsContaining v remaining)]).lookup w)
              = freq.lookup w := by
            rw [lookup_append]
            have hne : (w == v) = false := beq_false_of_ne hwv
            by_cases h : (freq.lookup w).isSome
            · rw [if_pos h]
            · rw [if_neg h]
              simp [List.lookup, hne, Option.not_isSome_iff_eq_none.mp h]
          rw [h1]
          by_cases hw : (freq.lookup w).isSome
          · simp [hw]
          · simp [hw, List.mem_cons, hwv]

lemma buildFreq_lookup_some (rest : List (List String)) (freq : List (String × Nat))
    (w : String) (c : Nat) (h : freq.lookup w = some c) :
    (buildFreq rest freq).lookup w = some c := by
  induction rest generalizing freq with
  | nil => exact h
  | cons ws rest ih =>
      rw [buildFreq]
      apply ih
      rw [processWords_lookup, if_pos (by rw [h]; rfl), h]

lemma buildFreq_lookup_none (rest : List (List String)) (freq : List (String × Nat))
    (w : String) (h : freq.lookup w = none) :
    (buildFreq rest freq).lookup w =
      if ∃ d ∈ rest, w ∈ d then
        some (rest.countP (fun d => decide (w ∈ d)))
      else none := by
  induction rest generalizing freq with
  | nil => simp [buildFreq, h]
  | cons ws rest ih =>
      rw [buildFreq]
      have hpw : (processWords (ws :: rest) ws freq).lookup w =
          if w ∈ ws then some (countDocsContaining w (ws :: rest)) else none := by
        rw [processWords_lookup, if_neg (by rw [h]; exact Bool.false_ne_true)]
      by_cases hmem : w ∈ ws
      · have hex : ∃ d ∈ ws :: rest, w ∈ d := ⟨ws, List.mem_cons_self ws rest, hmem⟩
        rw [if_pos hex,
          show (ws :: rest).countP (fun d => decide (w ∈ d))
            = countDocsContaining w (ws :: rest) from rfl]
        exact buildFreq_lookup_some rest _ w _ (by rw [hpw, if_pos hmem])
      · rw [ih _ (by rw [hpw, if_neg hmem])]
        have hiff : (∃ d ∈ rest, w ∈ d) ↔ (∃ d ∈ ws :: rest, w ∈ d) := by
          constructor
          · rintro ⟨d, hd, hwd⟩
            exact ⟨d, List.mem_cons_of_mem ws hd, hwd⟩
          · rintro ⟨d, hd, hwd⟩
            rcases List.mem_cons.mp hd with h | h
            · exact absurd (h ▸ hwd) hmem
            · exact ⟨d, h, hwd⟩
        by_cases hex : ∃ d ∈ rest, w ∈ d
        · rw [if_pos hex, if_pos (hiff.mp hex)]
          have hcount : (ws :: rest).countP (fun d => decide (w ∈ d))
              = rest.countP (fun d => decide (w ∈ d)) := by
            rw [List.countP_cons]
            simp [hmem]
          rw [hcount]
        · rw [if_neg hex, if_neg (fun hh => hex (hiff.mpr hh))]

lemma processWords_values_pos (remaining : List (List String)) (ws : List String) :
    ∀ (freq : List (String × Nat)), (∀ w ∈ ws, ∃ d ∈ remaining, w ∈ d) →
      (∀ p ∈ freq, 0 < p.2) → ∀ p ∈ processWords remaining ws freq, 0 < p.2 := by
  induction ws with
  | nil => exact fun freq _ h => h
  | cons v ws ih =>
      intro freq hws h
      rw [processWords]
      by_cases hv : (freq.lookup v).isSome
      · rw [if_pos hv]
        exact ih freq (fun w hw => hws w (List.mem_cons_of_mem v hw)) h
      · rw [if_neg hv]
        apply ih _ (fun w hw => hws w (List.mem_cons_of_mem v hw))
        intro p hp
        rcases List.mem_append.mp hp with h1 | h1
        · exact h p h1
        · rcases List.mem_singleton.mp h1 with rfl
          obtain ⟨d, hd, hvd⟩ := hws v (List.mem_cons_self v ws)
          exact List.countP_pos_iff.mpr ⟨d, hd, by simpa using hvd⟩

lemma buildFreq_values_pos (rest : List (List String)) (freq : List (String × Nat))
    (h : ∀ p ∈ freq, 0 < p.2) : ∀ p ∈ buildFreq rest freq, 0 < p.2 := by
  induction rest generalizing freq with
  | nil => exact h
  | cons ws rest ih =>
      rw [buildFreq]
      apply ih
      apply processWords_values_pos
      · exact fun w hw => ⟨ws, List.mem_cons_self ws rest, hw⟩
      · exact h

lemma lookup_map_snd {β γ : Type*} (l : List (String × β)) (f : String → β → γ)
    (w : String) :
    ((l.map (fun p => (p.1, f p.1 p.2))).lookup w) = (l.lookup w).map (f w) := by
  induction l with
  | nil => simp [List.lookup]
  | cons p t ih =>
      obtain ⟨k, v⟩ := p
      by_cases h : w = k
      · subst h
        simp [List.lookup]
      · have hne : (w == k) = false := beq_false_of_ne h
        simp [List.lookup, hne, ih]

/-- Characterization of `compute_idfs` as a mapping: a word is a key iff it
occurs in at least one document, and its value is
`log(num_documents / df)` where `df` counts the documents containing it. -/
lemma compute_idfs_lookup_eq (documents : List (String × List String)) (w : String) :
    (compute_idfs documents).lookup w =
      if ∃ p ∈ documents, w ∈ p.2 then
        some (Real.log ((documents.length : ℝ) /
          (documents.countP (fun p => decide (w ∈ p.2)) : ℝ)))
      else none := by
  have hpos : ∀ p ∈ buildFreq (documents.map Prod.snd) [], 0 < p.2 :=
    buildFreq_values_pos _ [] (by intro p hp; cases hp)
  have hfilter : (buildFreq (documents.map Prod.snd) []).filter (fun p => p.2 != 0)
      = buildFreq (documents.map Prod.snd) [] := by
    apply List.filter_eq_self.mpr
    intro p hp
    simpa using (Nat.pos_iff_ne_zero.mp (hpos p hp))
  have hbf : (buildFreq (documents.map Prod.snd) []).lookup w =
      if ∃ d ∈ documents.map Prod.snd, w ∈ d then
        some ((documents.map Prod.snd).countP (fun d => decide (w ∈ d)))
      else none :=
    buildFreq_lookup_none _ [] w rfl
  have hmem : (∃ d ∈ documents.map Prod.snd, w ∈ d) ↔ (∃ p ∈ documents, w ∈ p.2) := by
    constructor
    · rintro ⟨d, hd, hwd⟩
      obtain ⟨p, hp, rfl⟩ := List.mem_map.mp hd
      exact ⟨p, hp, hwd⟩
    · rintro ⟨p, hp, hwp⟩
      exact ⟨p.2, List.mem_map.mpr ⟨p, hp, rfl⟩, hwp⟩
  have hcount : (documents.map Prod.snd).countP (fun d => decide (w ∈ d))
      = documents.countP (fun p => decide (w ∈ p.2)) := by
    rw [List.countP_map]
    rfl
  have hmap : (((buildFreq (documents.map Prod.snd) []).map
        (fun p => (p.1, Real.log ((documents.length : ℝ) / (p.2 : ℝ))))).lookup w)
      = ((buildFreq (documents.map Prod.snd) []).lookup w).map
        (fun v : Nat => Real.log ((documents.length : ℝ) / (v : ℝ))) :=
    lookup_map_snd _ (fun (_ : String) (v : Nat) =>
      Real.log ((documents.length : ℝ) / (v : ℝ))) w
  show (((buildFreq (documents.map Prod.snd) []).filter (fun p => p.2 != 0)).map
      (fun p => (p.1, Real.log ((documents.length : ℝ) / (p.2 : ℝ))))).lookup w = _
  rw [hfilter, hmap, hbf]
  by_cases hex : ∃ p ∈ documents, w ∈ p.2
  · rw [if_pos (hmem.mpr hex), if_pos hex, hcount]
    rfl
  · rw [if_neg (fun h => hex (hmem.mp h)), if_neg hex]
    rfl

/-- Greedy left-to-right non-overlapping matching for a non-empty pattern
`sub`, with a fuel argument (the length of the scanned string suffices,
since every step consumes at least one character). -/
def strCountAux (sub : List Char) : Nat → List Char → Nat
  | _, [] => 0
  | 0, _ => 0
  | fuel + 1, c :: t =>
      if sub.isPrefixOf (c :: t) then
        1 + strCountAux sub fuel (t.drop (sub.length - 1))
      else strCountAux sub fuel t

/-- Python's `s.count(sub)` for strings: the number of non-overlapping
occurrences of `sub` in `s`, scanning left to right (`len(s) + 1` for the
empty pattern, as in Python). -/
def strCount (s sub : String) : Nat :=
  if sub.data.isEmpty then s.data.length + 1
  else strCountAux sub.data s.data.length s.data

/-- Python's true division, which raises `ZeroDivisionError` on a zero
denominator: modelled as `none` in that case. -/
def divOpt {α : Type*} [DivisionRing α] [DecidableEq α] (a b : α) : Option α :=
  if b = 0 then none else some (a / b)

/-- The score accumulated for one file in `top_files`:
`for word in query: file_to_tfidf[file] += files[file].count(word) * idfs.get(word, 0)`. -/
def fileScore {α : Type*} [LinearOrderedField α] (query : Finset String)
    (tokens : List String) (idfs : List (String × α)) : α :=
  ∑ word in query, (tokens.count word : α) * ((idfs.lookup word).getD 0)

/-- Function `top_files` from questions.py: score every file, sort the
`(filename, score)` items by score descending (stable), and return the
first `n` filenames. -/
def top_files {α : Type*} [LinearOrderedField α] (query : Finset String)
    (files : List (String × List String)) (idfs : List (String × α)) (n : Nat) :
    List String :=
  let file_to_tfidf := files.map (fun f => (f.1, fileScore query f.2 idfs))
  let sorted_files_tfidf := pySortDesc (fun p => p.2) file_to_tfidf
  (sorted_files_tfidf.map Prod.fst).take n

/-- The `idf` accumulated for one sentence in `top_sentences`: a query word
contributes `idfs.get(word, 0)` once iff it occurs in the sentence's token
list (`if word in sentences[sentence]`). -/
def matchedIdf {α : Type*} [LinearOrderedField α] (query : Finset String)
    (tokens : List String) (idfs : List (String × α)) : α :=
  ∑ word in query, if word ∈ tokens then (idfs.lookup word).getD 0 else 0

/-- The numerator accumulated for one sentence in `top_sentences`:
`num_word_in_sentence += sentence.count(word)` — note this counts substring
occurrences of each query word in the RAW sentence text, not occurrences in
the token list. -/
def densityNum (query : Finset String) (sentenceText : String) : Nat :=
  ∑ word in query, strCount sentenceText word

/-- The `(idf, density)` pair `top_sentences` stores for one sentence;
`none` when the density division `num_word_in_sentence / len(sentences[sentence])`
raises `ZeroDivisionError`. -/
def sentenceScore {α : Type*} [LinearOrderedField α] (query : Finset String)
    (sentenceText : String) (tokens : List String) (idfs : List (String × α)) :
    Option (α × α) :=
  (divOpt ((densityNum query sentenceText : α)) ((tokens.length : α))).map
    (fun density => (matchedIdf query tokens idfs, density))

/-- The `sentence_map` loop of `top_sentences` over all sentences; `none` as
soon as any sentence raises. -/
def scoreSentences {α : Type*} [LinearOrderedField α] (query : Finset String)
    (sentences : List (String × List String)) (idfs : List (String × α)) :
    Option (List (String × (α × α))) :=
  match sentences with
  | [] => some []
  | s :: rest =>
      match sentenceScore query s.1 s.2 idfs, scoreSentences query rest idfs with
      | some sc, some l => some ((s.1, sc) :: l)
      | _, _ => none

/-- Function `top_sentences` from questions.py: score every sentence with an
`(idf, density)` pair, sort the items by that pair lexicographically
descending (Python compares the tuples `(item[1]["idf"], item[1]["density"])`
lexicographically; `sorted` is stable), and return the first `n` sentence
texts. -/
def top_sentences {α : Type*} [LinearOrderedField α] (query : Finset String)
    (sentences : List (String × List String)) (idfs : List (String × α)) (n : Nat) :
    Option (List String) :=
  (scoreSentences query sentences idfs).map (fun scored =>
    ((pySortDesc (fun p => toLex p.2) scored).map Prod.fst).take n)

/-- One dict assignment `sentences[sentence] = tokens` of the orchestrator:
a new key is appended, an existing key keeps its position and gets the new
value. -/
def addSentence (m : List (String × List String)) (s : String)
    (toks : List String) : List (String × List String) :=
  if (m.lookup s).isSome then m.map (fun p => if p.1 = s then (p.1, toks) else p)
  else m ++ [(s, toks)]

/-- The sentence-collection loop of `main`: for each extracted sentence,
tokenize it and add it to the dict only if its token list is non-empty
(`if tokens: sentences[sentence] = tokens`). -/
def collectSentences (tok : String → List String) :
    List String → List (String × List String) → List (String × List String)
  | [], m => m
  | s :: rest, m =>
      let tokens := tok s
      if tokens.isEmpty then collectSentences tok rest m
      else collectSentences tok rest (addSentence m s tokens)

lemma addSentence_values_ne_nil (m : List (String × List String)) (s : String)
    (toks : List String) (htoks : toks ≠ [])
    (h : ∀ p ∈ m, p.2 ≠ []) : ∀ p ∈ addSentence m s toks, p.2 ≠ [] := by
  unfold addSentence
  by_cases hs : (m.lookup s).isSome
  · rw [if_pos hs]
    intro p hp
    obtain ⟨q, hq, rfl⟩ := List.mem_map.mp hp
    by_cases hqs : q.1 = s
    · simpa [hqs] using htoks
    · simpa [hqs] using h q hq
  · rw [if_neg hs]
    intro p hp
    rcases List.mem_append.mp hp with h1 | h1
    · exact h p h1
    · rcases List.mem_singleton.mp h1 with rfl
      exact htoks

lemma collectSentences_values_ne_nil (tok : String → List String)
    (sents : List String) :
    ∀ (m : List (String × List String)), (∀ p ∈ m, p.2 ≠ []) →
      ∀ p ∈ collectSentences tok sents m, p.2 ≠ [] := by
  induction sents with
  | nil => exact fun m h => h
  | cons s rest ih =>
      intro m h
      rw [collectSentences]
      by_cases he : (tok s).isEmpty
      · rw [if_pos he]
        exact ih m h
      · rw [if_neg he]
        exact ih _ (addSentence_values_ne_nil m s (tok s)
          (by simpa [List.isEmpty_iff] using he) h)

lemma scoreSentences_eq_some {α : Type*} [LinearOrderedField α]
    (query : Finset String) (sentences : List (String × List String))
    (idfs : List (String × α)) (h : ∀ s ∈ sentences, s.2 ≠ []) :
    scoreSentences query sentences idfs =
      some (sentences.map (fun s => (s.1, (matchedIdf query s.2 idfs,
        (densityNum query s.1 : α) / (s.2.length : α))))) := by
  induction sentences with
  | nil => rfl
  | cons s rest ih =>
      have hlen : ((s.2.length : α)) ≠ 0 := by
        have : s.2.length ≠ 0 :=
          fun hc => h s (List.mem_cons_self s rest) (List.length_eq_zero.mp hc)
        exact_mod_cast Nat.cast_ne_zero.mpr this
      have hsc : sentenceScore query s.1 s.2 idfs =
          some (matchedIdf query s.2 idfs,
            (densityNum query s.1 : α) / (s.2.length : α)) := by
        unfold sentenceScore divOpt
        rw [if_neg hlen]
        rfl
      rw [scoreSentences, hsc, ih (fun q hq => h q (List.mem_cons_of_mem s hq))]
      rfl

/-- C1: for every document mapping, `compute_idfs` returns a mapping whose
keys are exactly the tokens occurring in at least one document's token
sequence, and which assigns to each such token `t` the value
`log(N / df(t))` where `N` is the number of documents and `df(t)` is the
number of documents whose token sequence contains `t` at least once
(presence, not frequency). -/
theorem compute_idfs_keys_and_values (documents : List (String × List String))
    (t : String) :
    (compute_idfs documents).lookup t =
      if ∃ p ∈ documents, t ∈ p.2 then
        some (Real.log ((documents.length : ℝ) /
          (documents.countP (fun p => decide (t ∈ p.2)) : ℝ)))
      else none :=
  compute_idfs_lookup_eq documents t

/-- C6: `compute_idfs` produces the same token-to-IDF mapping (same key set,
same value at each key) for any permutation of the document list; the result
does not depend on document iteration order. -/
theorem compute_idfs_perm_invariant (docs docs' : List (String × List String))
    (hperm : docs.Perm docs') (w : String) :
    (compute_idfs docs).lookup w = (compute_idfs docs').lookup w := by
  rw [compute_idfs_lookup_eq, compute_idfs_lookup_eq, hperm.length_eq,
    hperm.countP_eq (fun p => decide (w ∈ p.2))]
  have hex : (∃ p ∈ docs, w ∈ p.2) ↔ (∃ p ∈ docs', w ∈ p.2) := by
    constructor <;> rintro ⟨p, hp, hwp⟩
    · exact ⟨p, hperm.mem_iff.mp hp, hwp⟩
    · exact ⟨p, hperm.mem_iff.mpr hp, hwp⟩
  exact if_congr hex rfl rfl

theorem compute_idfs_perm_invariant_witness :
    ([("a", ["x"]), ("b", ["y"])] : List (String × List String)).Perm
        [("b", ["y"]), ("a", ["x"])] ∧
      (compute_idfs [("a", ["x"]), ("b", ["y"])]).lookup "x"
        = (compute_idfs [("b", ["y"]), ("a", ["x"])]).lookup "x" :=
  ⟨List.Perm.swap ("b", ["y"]) ("a", ["x"]) [],
    compute_idfs_perm_invariant _ _ (List.Perm.swap ("b", ["y"]) ("a", ["x"]) []) "x"⟩

/-- C7: for a token `t` present in the corpus, (a) appending a new document
that does not contain `t` leaves `idf(t)` defined and non-decreasing
(`N` grows while `df(t)` is unchanged), and (b) adding a further occurrence
of `t` to a document that already contains it, without adding documents,
leaves `idf(t)` unchanged (IDF depends only on per-document presence, not
frequency). -/
theorem compute_idfs_monotone (docs : List (String × List String)) (t : String)
    (newId : String) (newWs : List String)
    (hpres : ∃ p ∈ docs, t ∈ p.2) (hnew : t ∉ newWs) :
    (∃ v v', (compute_idfs docs).lookup t = some v ∧
        (compute_idfs (docs ++ [(newId, newWs)])).lookup t = some v' ∧ v ≤ v') ∧
      (∀ (pre post : List (String × List String)) (sid : String)
          (sws : List String), t ∈ sws →
        (compute_idfs (pre ++ (sid, sws) :: post)).lookup t
          = (compute_idfs (pre ++ (sid, t :: sws) :: post)).lookup t) := by
  constructor
  · have hdfpos : 0 < docs.countP (fun p => decide (t ∈ p.2)) := by
      obtain ⟨p, hp, htp⟩ := hpres
      exact List.countP_pos_iff.mpr ⟨p, hp, by simpa using htp⟩
    have hdfle : docs.countP (fun p => decide (t ∈ p.2)) ≤ docs.length :=
      List.countP_le_length _
    have hNpos : 0 < docs.length := lt_of_lt_of_le hdfpos hdfle
    have hpres' : ∃ p ∈ docs ++ [(newId, newWs)], t ∈ p.2 := by
      obtain ⟨p, hp, htp⟩ := hpres
      exact ⟨p, List.mem_append_left _ hp, htp⟩
    have hcount : (docs ++ [(newId, newWs)]).countP (fun p => decide (t ∈ p.2))
        = docs.countP (fun p => decide (t ∈ p.2)) := by
      rw [List.countP_append]
      simp [hnew]
    refine ⟨_, _, by rw [compute_idfs_lookup_eq, if_pos hpres],
      by rw [compute_idfs_lookup_eq, if_pos hpres'], ?_⟩
    rw [hcount, List.length_append, List.length_singleton]
    apply Real.log_le_log
    · apply div_pos
      · exact_mod_cast hNpos
      · exact_mod_cast hdfpos
    · exact div_le_div_of_nonneg_right (by exact_mod_cast Nat.le_succ docs.length)
        (by exact_mod_cast Nat.le_of_lt hdfpos)
  · intro pre post sid sws hts
    have hex1 : ∃ p ∈ pre ++ (sid, sws) :: post, t ∈ p.2 :=
      ⟨(sid, sws), by simp, hts⟩
    have hex2 : ∃ p ∈ pre ++ (sid, t :: sws) :: post, t ∈ p.2 :=
      ⟨(sid, t :: sws), by simp, List.mem_cons_self t sws⟩
    rw [compute_idfs_lookup_eq, compute_idfs_lookup_eq, if_pos hex1, if_pos hex2]
    have hlen : (pre ++ (sid, sws) :: post).length
        = (pre ++ (sid, t :: sws) :: post).length := by simp
    have hcnt : (pre ++ (sid, sws) :: post).countP (fun p => decide (t ∈ p.2))
        = (pre ++ (sid, t :: sws) :: post).countP (fun p => decide (t ∈ p.2)) := by
      rw [List.countP_append, List.countP_append, List.countP_cons, List.countP_cons]
      have h1 : (decide (t ∈ sws) : Bool) = true := by simpa using hts
      have h2 : (decide (t ∈ t :: sws) : Bool) = true := by simp
      simp [h1, h2]
    rw [hlen, hcnt]

theorem compute_idfs_monotone_witness :
    (∃ v v', (compute_idfs [("a", ["t", "u"])]).lookup "t" = some v ∧
        (compute_idfs ([("a", ["t", "u"])] ++ [("b", ["u"])])).lookup "t" = some v' ∧
        v ≤ v') ∧
      (compute_idfs ([] ++ ("a", ["t"]) :: [])).lookup "t"
        = (compute_idfs ([] ++ ("a", "t" :: ["t"]) :: [])).lookup "t" :=
  ⟨(compute_idfs_monotone [("a", ["t", "u"])] "t" "b" ["u"] (by decide) (by decide)).1,
    (compute_idfs_monotone [("a", ["t", "u"])] "t" "b" ["u"] (by decide)
      (by decide)).2 [] [] "a" ["t"] (by decide)⟩

/-- C4: `top_files` scores every document by
`Σ over query words of (occurrence count in the document's token list) ×
(IDF from the table, defaulting to 0 when absent)`, returns the document
identifiers sorted by that score descending, and returns at most `n` of
them — all of them when fewer than `n` documents exist. -/
theorem top_files_spec {α : Type*} [LinearOrderedField α] (query : Finset String)
    (files : List (String × List String)) (idfs : List (String × α)) (n : Nat) :
    ∃ l : List (String × α),
      l.Perm (files.map (fun f => (f.1,
        ∑ word in query, (f.2.count word : α) * ((idfs.lookup word).getD 0)))) ∧
      l.Pairwise (fun p q => q.2 ≤ p.2) ∧
      top_files query files idfs n = (l.map Prod.fst).take n ∧
      (top_files query files idfs n).length = min n files.length := by
  refine ⟨pySortDesc (fun p => p.2)
    (files.map (fun f => (f.1, fileScore query f.2 idfs))), ?_, ?_, ?_, ?_⟩
  · exact pySortDesc_perm _ _
  · exact pySortDesc_pairwise _ _
  · rfl
  · show (((pySortDesc (fun p => p.2)
        (files.map (fun f => (f.1, fileScore query f.2 idfs)))).map Prod.fst).take n).length = _
    rw [List.length_take, List.length_map, (pySortDesc_perm _ _).length_eq,
      List.length_map]

theorem top_files_spec_witness :
    ∃ l : List (String × ℚ),
      l.Perm (([("a", ["dog"]), ("b", ["cat"])] : List (String × List String)).map
        (fun f => (f.1, ∑ word in ({"dog"} : Finset String),
          (f.2.count word : ℚ) * ((([("dog", (1 : ℚ))]).lookup word).getD 0)))) ∧
      l.Pairwise (fun p q => q.2 ≤ p.2) ∧
      top_files {"dog"} [("a", ["dog"]), ("b", ["cat"])] [("dog", (1 : ℚ))] 2
        = (l.map Prod.fst).take 2 ∧
      (top_files {"dog"} [("a", ["dog"]), ("b", ["cat"])] [("dog", (1 : ℚ))] 2).length
        = min 2 ([("a", ["dog"]), ("b", ["cat"])] : List (String × List String)).length :=
  top_files_spec {"dog"} [("a", ["dog"]), ("b", ["cat"])] [("dog", (1 : ℚ))] 2

/-- C3: `top_sentences` scores each sentence with `matched_idf` = the sum
over query words of the table's IDF (0 when absent), contributed exactly
once iff the word occurs in the sentence's token sequence (presence test),
and orders sentences by the `(matched_idf, density)` pair lexicographically
descending, i.e. `matched_idf` descending with `density` descending as
tie-break. -/
theorem top_sentences_ranking {α : Type*} [LinearOrderedField α]
    (query : Finset String) (sentences : List (String × List String))
    (idfs : List (String × α)) (n : Nat) (h : ∀ s ∈ sentences, s.2 ≠ []) :
    ∃ l : List (String × (α × α)),
      l.Perm (sentences.map (fun s => (s.1,
        (∑ word in query, if word ∈ s.2 then (idfs.lookup word).getD 0 else 0,
         (densityNum query s.1 : α) / (s.2.length : α))))) ∧
      l.Pairwise (fun p q => toLex q.2 ≤ toLex p.2) ∧
      top_sentences query sentences idfs n = some ((l.map Prod.fst).take n) := by
  refine ⟨pySortDesc (fun p => toLex p.2)
    (sentences.map (fun s => (s.1, (matchedIdf query s.2 idfs,
      (densityNum query s.1 : α) / (s.2.length : α))))), ?_, ?_, ?_⟩
  · exact pySortDesc_perm _ _
  · exact pySortDesc_pairwise _ _
  · unfold top_sentences
    rw [scoreSentences_eq_some query sentences idfs h]
    rfl

theorem top_sentences_ranking_witness :
    ∃ l : List (String × (ℚ × ℚ)),
      l.Perm (([("s", ["a"])] : List (String × List String)).map
        (fun s => (s.1,
          (∑ word in ({"a"} : Finset String),
            if word ∈ s.2 then ((([] : List (String × ℚ)).lookup word).getD 0) else 0,
           (densityNum {"a"} s.1 : ℚ) / (s.2.length : ℚ))))) ∧
      l.Pairwise (fun p q => toLex q.2 ≤ toLex p.2) ∧
      top_sentences {"a"} [("s", ["a"])] ([] : List (String × ℚ)) 1
        = some ((l.map Prod.fst).take 1) :=
  top_sentences_ranking {"a"} [("s", ["a"])] [] 1 (by decide)

/-- C8: the orchestrator's sentence-collection loop only stores sentences
with a non-empty token sequence (`if tokens:`), and under the precondition
that every stored token sequence is non-empty, `top_sentences` never
divides by zero, i.e. returns a result rather than raising. -/
theorem no_empty_token_sequences {α : Type*} [LinearOrderedField α] :
    (∀ (tok : String → List String) (sents : List String),
      ∀ p ∈ collectSentences tok sents [], p.2 ≠ []) ∧
    (∀ (query : Finset String) (sentences : List (String × List String))
        (idfs : List (String × α)) (n : Nat), (∀ s ∈ sentences, s.2 ≠ []) →
      (top_sentences query sentences idfs n).isSome) := by
  constructor
  · intro tok sents
    exact collectSentences_values_ne_nil tok sents []
      (fun p hp => absurd hp (List.not_mem_nil p))
  · intro query sentences idfs n h
    unfold top_sentences
    rw [scoreSentences_eq_some query sentences idfs h]
    rfl

theorem no_empty_token_sequences_witness :
    (∀ p ∈ collectSentences (fun s => if s = "a b" then ["b"] else []) ["a b", "c"] [],
      p.2 ≠ []) ∧
    (top_sentences (α := ℚ) ∅ [("s", ["w"])] [] 1).isSome :=
  ⟨(no_empty_token_sequences (α := ℚ)).1 _ _,
    (no_empty_token_sequences (α := ℚ)).2 ∅ [("s", ["w"])] [] 1 (by decide)⟩


/-- C9: with an empty query, every file and every sentence scores 0 (the
sentence pair being `(0, 0)`), and both rankers return the first `n` keys of
their input mapping in original insertion order; `top_sentences` returns a
result rather than raising. -/
theorem empty_query_stable {α : Type*} [LinearOrderedField α]
    (files sentences : List (String × List String))
    (idfs idfs2 : List (String × α)) (n : Nat)
    (hf : files ≠ []) (hs : sentences ≠ [])
    (hne : ∀ s ∈ sentences, s.2 ≠ []) :
    (∀ f ∈ files, fileScore (∅ : Finset String) f.2 idfs = 0) ∧
    top_files (∅ : Finset String) files idfs n = (files.map Prod.fst).take n ∧
    (∀ s ∈ sentences, sentenceScore (∅ : Finset String) s.1 s.2 idfs2 = some (0, 0)) ∧
    top_sentences (∅ : Finset String) sentences idfs2 n
      = some ((sentences.map Prod.fst).take n) := by
  have hfs : ∀ tokens : List String, fileScore (∅ : Finset String) tokens idfs = 0 := by
    intro tokens
    simp [fileScore]
  have hmi : ∀ tokens : List String,
      matchedIdf (∅ : Finset String) tokens idfs2 = 0 := by
    intro tokens
    simp [matchedIdf]
  have hdn : ∀ text : String, densityNum (∅ : Finset String) text = 0 := by
    intro text
    simp [densityNum]
  refine ⟨fun f _ => hfs f.2, ?_, ?_, ?_⟩
  · have hall : ∀ p ∈ files.map (fun f => (f.1, fileScore (∅ : Finset String) f.2 idfs)),
        (fun p : String × α => p.2) p = (0 : α) := by
      intro p hp
      obtain ⟨f, _, rfl⟩ := List.mem_map.mp hp
      exact hfs f.2
    show (((pySortDesc (fun p => p.2)
        (files.map (fun f => (f.1, fileScore (∅ : Finset String) f.2 idfs)))).map
          Prod.fst).take n) = _
    rw [pySortDesc_of_all_eq (fun p : String × α => p.2) (0 : α) _ hall,
      List.map_map]
    rfl
  · intro s hsmem
    have hlen : ((s.2.length : α)) ≠ 0 :=
      Nat.cast_ne_zero.mpr (fun hc => hne s hsmem (List.length_eq_zero.mp hc))
    unfold sentenceScore divOpt
    rw [if_neg hlen, hmi, hdn]
    simp
  · unfold top_sentences
    rw [scoreSentences_eq_some _ _ _ hne]
    have hall : ∀ p ∈ sentences.map (fun s => (s.1,
        (matchedIdf (∅ : Finset String) s.2 idfs2,
         (densityNum (∅ : Finset String) s.1 : α) / (s.2.length : α)))),
        (fun p : String × (α × α) => toLex p.2) p = toLex ((0 : α), (0 : α)) := by
      intro p hp
      obtain ⟨s, hsmem, rfl⟩ := List.mem_map.mp hp
      rw [hmi s.2, hdn s.1]
      norm_num
    show some (((pySortDesc (fun p => toLex p.2) (sentences.map (fun s => (s.1,
        (matchedIdf (∅ : Finset String) s.2 idfs2,
         (densityNum (∅ : Finset String) s.1 : α) / (s.2.length : α)))))).map
          Prod.fst).take n) = _
    rw [pySortDesc_of_all_eq (fun p : String × (α × α) => toLex p.2)
      (toLex ((0 : α), (0 : α))) _ hall, List.map_map]
    rfl

theorem empty_query_stable_witness :
    (∀ f ∈ ([("a", ["x"])] : List (String × List String)),
      fileScore (∅ : Finset String) f.2 ([] : List (String × ℚ)) = 0) ∧
    top_files (∅ : Finset String) [("a", ["x"])] ([] : List (String × ℚ)) 1
      = (([("a", ["x"])] : List (String × List String)).map Prod.fst).take 1 ∧
    (∀ s ∈ ([("b", ["y"])] : List (String × List String)),
      sentenceScore (∅ : Finset String) s.1 s.2 ([] : List (String × ℚ)) = some (0, 0)) ∧
    top_sentences (∅ : Finset String) [("b", ["y"])] ([] : List (String × ℚ)) 1
      = some ((([("b", ["y"])] : List (String × List String)).map Prod.fst).take 1) :=
  empty_query_stable [("a", ["x"])] [("b", ["y"])] [] [] 1
    (by decide) (by decide) (by decide)

lemma map_fst_map_pair {β γ : Type*} (l : List (String × β)) (g : String × β → γ) :
    ((l.map (fun f => (f.1, g f))).map Prod.fst) = l.map Prod.fst := by
  rw [List.map_map]
  rfl

/-- C10: both rankers return a duplicate-free list of keys of their input
mapping (assuming the mapping's keys are duplicate-free): they never invent
or repeat identifiers. -/
theorem rankers_return_input_keys {α : Type*} [LinearOrderedField α]
    (query : Finset String) (files sentences : List (String × List String))
    (idfs idfs2 : List (String × α)) (n : Nat)
    (hf : (files.map Prod.fst).Nodup) (hs : (sentences.map Prod.fst).Nodup)
    (hne : ∀ s ∈ sentences, s.2 ≠ []) :
    ((top_files query files idfs n).Nodup ∧
      ∀ x ∈ top_files query files idfs n, x ∈ files.map Prod.fst) ∧
    (∀ out, top_sentences query sentences idfs2 n = some out →
      out.Nodup ∧ ∀ x ∈ out, x ∈ sentences.map Prod.fst) := by
  constructor
  · have hperm : ((pySortDesc (fun p : String × α => p.2)
        (files.map (fun f => (f.1, fileScore query f.2 idfs)))).map Prod.fst).Perm
          (files.map Prod.fst) := by
      have h1 := (pySortDesc_perm (fun p : String × α => p.2)
        (files.map (fun f => (f.1, fileScore query f.2 idfs)))).map Prod.fst
      rw [map_fst_map_pair files (fun f => fileScore query f.2 idfs)] at h1
      exact h1
    have htf : top_files query files idfs n
        = ((pySortDesc (fun p : String × α => p.2)
            (files.map (fun f => (f.1, fileScore query f.2 idfs)))).map Prod.fst).take n :=
      rfl
    constructor
    · rw [htf]
      exact List.Nodup.sublist (List.take_sublist n _) (hperm.nodup_iff.mpr hf)
    · intro x hx
      rw [htf] at hx
      exact hperm.subset (List.take_subset n _ hx)
  · intro out hout
    have h2 : top_sentences query sentences idfs2 n
        = some (((pySortDesc (fun p : String × (α × α) => toLex p.2)
            (sentences.map (fun s => (s.1, (matchedIdf query s.2 idfs2,
              (densityNum query s.1 : α) / (s.2.length : α)))))).map Prod.fst).take n) := by
      unfold top_sentences
      rw [scoreSentences_eq_some query sentences idfs2 hne]
      rfl
    rw [h2] at hout
    obtain rfl := Option.some.inj hout
    have hperm : ((pySortDesc (fun p : String × (α × α) => toLex p.2)
        (sentences.map (fun s => (s.1, (matchedIdf query s.2 idfs2,
          (densityNum query s.1 : α) / (s.2.length : α)))))).map Prod.fst).Perm
            (sentences.map Prod.fst) := by
      have h1 := (pySortDesc_perm (fun p : String × (α × α) => toLex p.2)
        (sentences.map (fun s => (s.1, (matchedIdf query s.2 idfs2,
          (densityNum query s.1 : α) / (s.2.length : α)))))).map Prod.fst
      rw [map_fst_map_pair sentences (fun s => (matchedIdf query s.2 idfs2,
        (densityNum query s.1 : α) / (s.2.length : α)))] at h1
      exact h1
    constructor
    · exact List.Nodup.sublist (List.take_sublist n _) (hperm.nodup_iff.mpr hs)
    · intro x hx
      exact hperm.subset (List.take_subset n _ hx)

theorem rankers_return_input_keys_witness :
    ((top_files {"q"} [("a", ["q"]), ("b", ["r"])] [("q", (1 : ℚ))] 1).Nodup ∧
      ∀ x ∈ top_files {"q"} [("a", ["q"]), ("b", ["r"])] [("q", (1 : ℚ))] 1,
        x ∈ ([("a", ["q"]), ("b", ["r"])] : List (String × List String)).map Prod.fst) ∧
    (∀ out, top_sentences {"q"} [("s", ["q"])] [("q", (1 : ℚ))] 1 = some out →
      out.Nodup ∧
        ∀ x ∈ out, x ∈ ([("s", ["q"])] : List (String × List String)).map Prod.fst) :=
  rankers_return_input_keys {"q"} [("a", ["q"]), ("b", ["r"])] [("s", ["q"])]
    [("q", (1 : ℚ))] [("q", (1 : ℚ))] 1 (by decide) (by decide) (by decide)

/-- C5 (amended): `tokenize` applies the external word tokenizer to the
lowercased input and keeps tokens in input order without deduplication
(filtering preserves order and multiplicity); a token is dropped iff it is a
stopword or it is a contiguous substring of `string.punctuation` — not iff
it "consists entirely of punctuation characters". -/
theorem tokenize_policy (wt : String → List String) (stopWords : List String)
    (document : String) :
    (tokenize wt stopWords document).Sublist (wt document.toLower) ∧
    (∀ w, w ∈ tokenize wt stopWords document ↔
      w ∈ wt document.toLower ∧ stopWords.contains w = false ∧
        pyInStr w.data PUNCTUATIONS.data = false) ∧
    (∀ w, stopWords.contains w = false → pyInStr w.data PUNCTUATIONS.data = false →
      (tokenize wt stopWords document).count w = (wt document.toLower).count w) := by
  refine ⟨List.filter_sublist _, ?_, ?_⟩
  · intro w
    simp [tokenize, List.mem_filter, Bool.and_eq_true, Bool.not_eq_true']
  · intro w hsw hpw
    unfold tokenize
    rw [List.count_filter]
    rw [hsw, hpw]
    rfl

theorem tokenize_policy_witness :
    (([] : List String).contains "x" = false) ∧
    (pyInStr ("x" : String).data PUNCTUATIONS.data = false) ∧
    (tokenize (fun _ => ["x", "y", "x"]) [] "d").count "x"
      = (((fun _ => ["x", "y", "x"]) ("d" : String).toLower : List String)).count "x" :=
  ⟨by decide, by decide,
    (tokenize_policy (fun _ => ["x", "y", "x"]) [] "d").2.2 "x" (by decide) (by decide)⟩

/-- C5 (counterexample): the token `"!!"` consists entirely of punctuation
characters and is not a stopword, yet `tokenize` keeps it — because the
code's test is `word not in string.punctuation`, a substring test that
`"!!"` fails to match. So "drops iff stopword or entirely punctuation" is
false of the code. -/
theorem tokenize_drop_counterexample :
    tokenize (fun _ => ["!!"]) [] "!!" = ["!!"] ∧
    (∀ c ∈ ("!!" : String).data, c ∈ PUNCTUATIONS.data) ∧
    ("!!" : String) ∉ ([] : List String) :=
  ⟨by decide, by decide, by decide⟩

/-- C2: at the failing input, the density computed by `top_sentences` for the
sentence `"this is an island"` with token list `["island"]` and query
`{"is"}` is `3` — it counts the 3 substring occurrences of `"is"` in the raw
sentence text (`"this"`, `"is"`, `"island"`) — whereas the token-sequence
based density demanded by the spec is `count("is", ["island"]) / 1 = 0`. -/
theorem top_sentences_density_counts_substrings :
    sentenceScore (α := ℚ) {"is"} "this is an island" ["island"] [] = some (0, 3) ∧
    ((["island"] : List String).count "is" : ℚ)
      / ((["island"] : List String).length : ℚ) = 0 := by
  constructor
  · have h3 : strCount "this is an island" "is" = 3 := by decide
    simp [sentenceScore, divOpt, densityNum, matchedIdf, h3]
  · have h0 : (["island"] : List String).count "is" = 0 := by decide
    rw [h0]
    norm_num
